import Mathlib

/-!
Shallow embedding of the cortical-thickness VAE pipeline.

Vectors are lists of reals and matrices are lists of row vectors. The model
classes of src/models/vae_models.py become structures carrying their
hyperparameters and layer weights; their call methods become functions; the
standard-normal noise drawn inside VAEEncoder.call is passed in as an
argument. The data preparation of src/utils.py is embedded over an abstract
table of rows. Floating-point arithmetic is idealized as exact real
arithmetic.
-/

namespace CorticalThickness

/-- Arithmetic mean of a list of reals (tf.reduce_mean over one axis). -/
noncomputable def listMean (l : List ℝ) : ℝ := l.sum / l.length

/-- Dot product of two vectors. -/
noncomputable def dot (w x : List ℝ) : ℝ := (List.zipWith (fun a b => a * b) w x).sum

/-- Weights and bias of one keras.layers.Dense layer, stored as one weight
vector per output unit. -/
structure DenseLayer where
  weights : List (List ℝ)
  bias : List ℝ

/-- Affine part of a Dense layer: one dot product plus bias per output unit. -/
noncomputable def affine (L : DenseLayer) (x : List ℝ) : List ℝ :=
  List.zipWith (fun w b => dot w x + b) L.weights L.bias

/-- Scale constant of the keras selu activation. -/
noncomputable def seluScale : ℝ := 1.05070098

/-- Alpha constant of the keras selu activation. -/
noncomputable def seluAlpha : ℝ := 1.67326324

/-- Selu activation: scale * x for positive x, scale * alpha * (exp x - 1)
otherwise. -/
noncomputable def selu (x : ℝ) : ℝ :=
  if 0 < x then seluScale * x else seluScale * (seluAlpha * (Real.exp x - 1))

/-- Dense layer with selu activation, as used for every hidden layer of the
encoder and decoder (vae_models.py lines 22-28, 85-91) and for the latent
layer (lines 34-39). -/
noncomputable def seluDense (L : DenseLayer) (x : List ℝ) : List ℝ :=
  (affine L x).map selu

/-- Row softmax, the activation of a Dense layer declared with softmax. -/
noncomputable def softmax (x : List ℝ) : List ℝ :=
  x.map (fun xi => Real.exp xi / (x.map Real.exp).sum)

/-- VAEEncoder (vae_models.py lines 6-67): hyperparameters together with the
weights of the hidden layers, the class-prediction layer y_layer and the
latent layer (which has 2 * latent_dim output units in the source). -/
structure VAEEncoderM where
  hidden_dim : List ℕ
  latent_dim : ℕ
  y_dim : ℕ
  l2_reg : ℝ
  hidden_layers : List DenseLayer
  y_layer : DenseLayer
  latent_layer : DenseLayer

/-- Output of VAEEncoder.call: (z_mean, z_log_var, z, y). -/
structure EncOut where
  z_mean : List ℝ
  z_log_var : List ℝ
  z : List ℝ
  y : List ℝ

/-- Hidden representation of the encoder: the fold of the hidden selu Dense
layers over the input (vae_models.py lines 42-44). -/
noncomputable def encoderHidden (enc : VAEEncoderM) (x : List ℝ) : List ℝ :=
  enc.hidden_layers.foldl (fun acc L => seluDense L acc) x

/-- VAEEncoder.call (vae_models.py lines 41-55). The latent layer is a Dense
layer with selu activation (line 36); tf.split halves its output into z_mean
and z_log_var (line 47); epsilon is the standard-normal noise of line 52,
taken here as an argument; z = z_mean + exp(0.5 * z_log_var) * epsilon
elementwise (line 53); y is the softmax output of y_layer (lines 29-33, 54). -/
noncomputable def VAEEncoder_call (enc : VAEEncoderM) (x epsilon : List ℝ) : EncOut :=
  let h := encoderHidden enc x
  let zpre := seluDense enc.latent_layer h
  let z_mean := zpre.take enc.latent_dim
  let z_log_var := zpre.drop enc.latent_dim
  let z := List.zipWith (fun mv e => mv.1 + Real.exp (0.5 * mv.2) * e)
    (z_mean.zip z_log_var) epsilon
  ⟨z_mean, z_log_var, z, softmax (affine enc.y_layer h)⟩

/-- VAEDecoder (vae_models.py lines 70-114): hyperparameters together with the
weights of the hidden selu layers and of the final softmax layer (in the
source the final layer is appended to the same dense_layers list). -/
structure VAEDecoderM where
  hidden_dim : List ℕ
  output_dim : ℕ
  l2_reg : ℝ
  hidden_layers : List DenseLayer
  final_layer : DenseLayer

/-- VAEDecoder.call (vae_models.py lines 99-103): the hidden selu layers
applied in order, then the final Dense layer with softmax activation
(lines 92-97). -/
noncomputable def VAEDecoder_call (dec : VAEDecoderM) (x : List ℝ) : List ℝ :=
  softmax (affine dec.final_layer (dec.hidden_layers.foldl (fun acc L => seluDense L acc) x))

/-- calc_kl_loss (vae_models.py lines 117-120): elementwise
-0.5 * (1 + log_var - mu^2 - exp log_var), summed over axis 1, then averaged
over the batch. -/
noncomputable def calc_kl_loss (mu log_var : List (List ℝ)) : ℝ :=
  listMean (List.zipWith (fun mrow vrow =>
    (List.zipWith (fun m v => -0.5 * (1 + v - m ^ 2 - Real.exp v)) mrow vrow).sum)
    mu log_var)

/-- VAE composite model (vae_models.py lines 123-199). -/
structure VAEM where
  encoder : VAEEncoderM
  decoder : VAEDecoderM

/-- Output of VAE.call on a batch, one row per example. -/
structure VAEOut where
  z_mean : List (List ℝ)
  z_log_var : List (List ℝ)
  z : List (List ℝ)
  y_hat : List (List ℝ)
  x_reconstructed : List (List ℝ)

/-- VAE.call (vae_models.py lines 183-187): the encoder applied to each
feature row with its noise row, then the decoder applied to the concatenation
(tf.concat axis=1) of each latent sample row with the label row. -/
noncomputable def VAE_call (m : VAEM) (X Y E : List (List ℝ)) : VAEOut :=
  let encOuts := List.zipWith (fun x e => VAEEncoder_call m.encoder x e) X E
  ⟨encOuts.map EncOut.z_mean, encOuts.map EncOut.z_log_var, encOuts.map EncOut.z,
    encOuts.map EncOut.y,
    List.zipWith (fun o yrow => VAEDecoder_call m.decoder (o.z ++ yrow)) encOuts Y⟩

/-- Loss components computed by VAE.train_step (vae_models.py lines 154-172):
the pluggable reconstruction and classification losses rec_fn and y_fn applied
to the forward pass, and the KL loss. tf.reduce_mean at line 159 receives the
scalar returned by calc_kl_loss and is the identity on it. Returns
(reconstruction_loss, kl_loss, y_loss, total_loss). -/
noncomputable def train_step_losses (m : VAEM)
    (rec_fn y_fn : List (List ℝ) → List (List ℝ) → ℝ)
    (X Y E : List (List ℝ)) : ℝ × ℝ × ℝ × ℝ :=
  let out := VAE_call m X Y E
  let reconstruction_loss := rec_fn X out.x_reconstructed
  let kl_loss := calc_kl_loss out.z_mean out.z_log_var
  let y_loss := y_fn Y out.y_hat
  (reconstruction_loss, kl_loss, y_loss, reconstruction_loss + kl_loss + y_loss)

/-- One row of the input table of src/utils.py: the dcode condition flag, the
feature columns that survive the drop at utils.py lines 24-25, and the one-hot
label row built at line 31. -/
structure Row where
  dcode : ℤ
  features : List ℝ
  label : List ℝ

instance : Inhabited Row := ⟨⟨0, [], []⟩⟩

/-- condition_indices (utils.py lines 23, 58, 100): the positions of the rows
whose dcode is 0. -/
def conditionIndices (db : List Row) : List ℕ :=
  (List.range db.length).filter (fun i => (db.getD i default).dcode = 0)

/-- Complement selection ~db.index.isin(condition_indices)
(utils.py lines 29, 36). -/
def otherIndices (db : List Row) : List ℕ :=
  (List.range db.length).filter (fun i => i ∉ conditionIndices db)

/-- db.loc[idx]: the rows at the given positions. -/
def rowsAt (db : List Row) (idx : List ℕ) : List Row :=
  idx.map (fun i => db.getD i default)

/-- Column means of a matrix, as fitted by StandardScaler. -/
noncomputable def colMeans (X : List (List ℝ)) : List ℝ := X.transpose.map listMean

/-- Column population variances of a matrix, as fitted by StandardScaler. -/
noncomputable def colVars (X : List (List ℝ)) : List ℝ :=
  X.transpose.map (fun c => listMean (c.map (fun v => (v - listMean c) ^ 2)))

/-- Per-column scale of StandardScaler: the square root of the variance, with
zero scales replaced by 1 (sklearn's handling of constant columns). -/
noncomputable def scaleOf (v : ℝ) : ℝ :=
  if Real.sqrt v = 0 then 1 else Real.sqrt v

/-- StandardScaler.transform of one row given the fitted means and variances. -/
noncomputable def scalerTransform (means vars : List ℝ) (row : List ℝ) : List ℝ :=
  List.zipWith (fun x mv => (x - mv.1) / scaleOf mv.2) row (means.zip vars)

/-- generate_data (utils.py lines 8-38): split the rows by dcode, fit the
scaler on the train pool (line 33), transform the test pool with it (line 34),
and select the label rows with the same index sets (lines 35-36). Returns
(train_x_norm, train_y, test_x_norm, test_y). -/
noncomputable def generate_data (db : List Row) :
    List (List ℝ) × List (List ℝ) × List (List ℝ) × List (List ℝ) :=
  let train_x := (rowsAt db (conditionIndices db)).map Row.features
  let test_x := (rowsAt db (otherIndices db)).map Row.features
  let means := colMeans train_x
  let vars := colVars train_x
  let train_x_norm := train_x.map (scalerTransform means vars)
  let test_x_norm := test_x.map (scalerTransform means vars)
  let train_y := (rowsAt db (conditionIndices db)).map Row.label
  let test_y := (rowsAt db (otherIndices db)).map Row.label
  (train_x_norm, train_y, test_x_norm, test_y)

/-- Selection of the thickness columns of a feature row (utils.py line 60:
the columns ending in _thickness, given here by their positions). -/
noncomputable def selCols (thIdx : List ℕ) (r : List ℝ) : List ℝ :=
  thIdx.map (fun j => r.getD j 0)

/-- generate_data_thickness_only (utils.py lines 41-90), up to the validation
subsplit of line 84: restrict to the thickness columns, split by dcode, and
when normalize is true fit the scaler on the train pool (line 75) and
transform the test pool with it (line 76); otherwise pass the raw values
through (lines 78-79). Returns (train_x_norm, train_y, test_x_norm, test_y). -/
noncomputable def generate_data_thickness_only (db : List Row) (thIdx : List ℕ)
    (normalize : Bool) :
    List (List ℝ) × List (List ℝ) × List (List ℝ) × List (List ℝ) :=
  let train_x := (rowsAt db (conditionIndices db)).map (fun r => selCols thIdx r.features)
  let test_x := (rowsAt db (otherIndices db)).map (fun r => selCols thIdx r.features)
  let train_x_norm := if normalize then
    train_x.map (scalerTransform (colMeans train_x) (colVars train_x)) else train_x
  let test_x_norm := if normalize then
    test_x.map (scalerTransform (colMeans train_x) (colVars train_x)) else test_x
  let train_y := (rowsAt db (conditionIndices db)).map Row.label
  let test_y := (rowsAt db (otherIndices db)).map Row.label
  (train_x_norm, train_y, test_x_norm, test_y)

/-- Value of VAEEncoder.get_config (vae_models.py lines 57-63). -/
structure EncoderConfig where
  hidden_dim : List ℕ
  latent_dim : ℕ
  y_dim : ℕ
  l2_reg : ℝ

/-- VAEEncoder.get_config (vae_models.py lines 57-63). -/
def VAEEncoder_get_config (e : VAEEncoderM) : EncoderConfig :=
  ⟨e.hidden_dim, e.latent_dim, e.y_dim, e.l2_reg⟩

/-- VAEEncoder.from_config (vae_models.py lines 65-67): rebuilds the model
from the four stored hyperparameters; the constructor initializes fresh
layers, given here as arguments. -/
def VAEEncoder_from_config (c : EncoderConfig)
    (hl : List DenseLayer) (yl ll : DenseLayer) : VAEEncoderM :=
  ⟨c.hidden_dim, c.latent_dim, c.y_dim, c.l2_reg, hl, yl, ll⟩

/-- Value of VAEDecoder.get_config (vae_models.py lines 105-110). -/
structure DecoderConfig where
  hidden_dim : List ℕ
  output_dim : ℕ
  l2_reg : ℝ

/-- VAEDecoder.get_config (vae_models.py lines 105-110). -/
def VAEDecoder_get_config (d : VAEDecoderM) : DecoderConfig :=
  ⟨d.hidden_dim, d.output_dim, d.l2_reg⟩

/-- VAEDecoder.from_config (vae_models.py lines 112-114). -/
def VAEDecoder_from_config (c : DecoderConfig)
    (dl : List DenseLayer) (fl : DenseLayer) : VAEDecoderM :=
  ⟨c.hidden_dim, c.output_dim, c.l2_reg, dl, fl⟩

/-- Value of VAE.get_config (vae_models.py lines 189-193): the nested encoder
and decoder configs. -/
structure VAEConfig where
  encoder_config : EncoderConfig
  decoder_config : DecoderConfig

/-- VAE.get_config (vae_models.py lines 189-193). -/
def VAE_get_config (v : VAEM) : VAEConfig :=
  ⟨VAEEncoder_get_config v.encoder, VAEDecoder_get_config v.decoder⟩

/-- VAE.from_config (vae_models.py lines 195-199): rebuilds the encoder and
decoder from their nested configs. -/
def VAE_from_config (c : VAEConfig) (hl : List DenseLayer) (yl ll : DenseLayer)
    (dl : List DenseLayer) (fl : DenseLayer) : VAEM :=
  ⟨VAEEncoder_from_config c.encoder_config hl yl ll,
    VAEDecoder_from_config c.decoder_config dl fl⟩

/-- One hyperparameter combination of the cross-validation sweep. -/
structure ParamCombo where
  hidden_dims : List ℕ
  latent_dim : ℕ
  dropout : ℚ
  activation : String
  init_name : String
  beta : ℚ
deriving DecidableEq

/-- Modelled from the spec: create_param_grid is defined in
modelUtils/vae_utils.py, which is not among the provided sources; per the spec
it enumerates every combination of the six hyperparameter axes (architecture,
latent dimension, dropout, activation, initializer name, beta). -/
def create_param_grid (hs : List (List ℕ)) (ls : List ℕ) (ds : List ℚ)
    (acts : List String) (inits : List String) (betas : List ℚ) : List ParamCombo :=
  (((((hs.product ls).product ds).product acts).product inits).product betas).map
    (fun p => ⟨p.1.1.1.1.1, p.1.1.1.1.2, p.1.1.1.2, p.1.1.2, p.1.2, p.2⟩)

/-- Result entry of the cross-validator for one grid point: the configuration
and its per-fold training histories. -/
structure CVEntry (H : Type) where
  params : ParamCombo
  histories : List H
deriving DecidableEq

/-- Modelled from the spec: VAECrossValidator.cross_validate is defined in
modelUtils/vae_utils.py, which is not among the provided sources; per the spec
it runs k-fold cross-validation for every grid point, recording one training
history per fold; the per-fold training run itself is abstracted by trainFold. -/
def cross_validate {H : Type} (grid : List ParamCombo) (k : ℕ)
    (trainFold : ParamCombo → ℕ → H) : List (CVEntry H) :=
  grid.map (fun p => ⟨p, (List.range k).map (trainFold p)⟩)

/-! Helper lemmas shared by the claim theorems. -/

lemma zipWith_sum_nonneg {α β : Type} (f : α → β → ℝ) (h : ∀ a b, 0 ≤ f a b) :
    ∀ (l₁ : List α) (l₂ : List β), 0 ≤ (List.zipWith f l₁ l₂).sum := by
  intro l₁
  induction l₁ with
  | nil => intro l₂; simp
  | cons a l ih =>
    intro l₂
    cases l₂ with
    | nil => simp
    | cons b l₂ =>
      simp only [List.zipWith_cons_cons, List.sum_cons]
      have := ih l₂
      have := h a b
      linarith

lemma zipWith_sum_mul_left {α β : Type} (c : ℝ) (f : α → β → ℝ) :
    ∀ (l₁ : List α) (l₂ : List β),
      (List.zipWith (fun a b => c * f a b) l₁ l₂).sum = c * (List.zipWith f l₁ l₂).sum := by
  intro l₁
  induction l₁ with
  | nil => intro l₂; simp
  | cons a l ih =>
    intro l₂
    cases l₂ with
    | nil => simp
    | cons b l₂ =>
      simp only [List.zipWith_cons_cons, List.sum_cons, ih l₂]
      ring

/-- C3: for every latent mean matrix and log-variance matrix, the value of
calc_kl_loss is nonnegative in exact real arithmetic: each summand equals
0.5 * (mu^2 + exp(logvar) - logvar - 1), and exp v is at least v + 1. -/
theorem calc_kl_loss_nonneg (mu log_var : List (List ℝ)) :
    0 ≤ calc_kl_loss mu log_var := by
  unfold calc_kl_loss listMean
  apply div_nonneg _ (Nat.cast_nonneg _)
  apply zipWith_sum_nonneg _ _ mu log_var
  intro mrow vrow
  apply zipWith_sum_nonneg _ _ mrow vrow
  intro m v
  nlinarith [Real.add_one_le_exp v, sq_nonneg m]

/-- C1: the total loss of VAE.train_step equals the reconstruction loss plus
the batch mean of the per-example KL term -0.5 * sum(1 + logvar - mean^2 -
exp logvar) plus the classification loss, with no beta weight on the KL term. -/
theorem train_step_total_loss (m : VAEM)
    (rec_fn y_fn : List (List ℝ) → List (List ℝ) → ℝ) (X Y E : List (List ℝ)) :
    (train_step_losses m rec_fn y_fn X Y E).2.2.2 =
      rec_fn X (VAE_call m X Y E).x_reconstructed
      + listMean (List.zipWith (fun mrow vrow =>
          -0.5 * (List.zipWith (fun mean lv => 1 + lv - mean ^ 2 - Real.exp lv) mrow vrow).sum)
          (VAE_call m X Y E).z_mean (VAE_call m X Y E).z_log_var)
      + y_fn Y (VAE_call m X Y E).y_hat := by
  have hkl : calc_kl_loss (VAE_call m X Y E).z_mean (VAE_call m X Y E).z_log_var =
      listMean (List.zipWith (fun mrow vrow =>
        -0.5 * (List.zipWith (fun mean lv => 1 + lv - mean ^ 2 - Real.exp lv) mrow vrow).sum)
        (VAE_call m X Y E).z_mean (VAE_call m X Y E).z_log_var) := by
    unfold calc_kl_loss
    congr 1
    have hrow : (fun (mrow vrow : List ℝ) =>
        (List.zipWith (fun mv v => -0.5 * (1 + v - mv ^ 2 - Real.exp v)) mrow vrow).sum) =
        (fun (mrow vrow : List ℝ) =>
          -0.5 * (List.zipWith (fun mean lv => 1 + lv - mean ^ 2 - Real.exp lv) mrow vrow).sum) := by
      funext mrow vrow
      exact zipWith_sum_mul_left (-0.5) (fun mean lv => 1 + lv - mean ^ 2 - Real.exp lv) mrow vrow
    rw [hrow]
  unfold train_step_losses
  dsimp only
  rw [hkl]

/-- C2: in generate_data exactly the rows whose dcode is 0 form the train pool
and all other rows form the test pool; the two index sets are disjoint, their
union is the full index range, and the label matrices are selected with the
same two index sets. -/
theorem generate_data_partition (db : List Row) (i : ℕ) :
    (i ∈ conditionIndices db ↔ i < db.length ∧ (db.getD i default).dcode = 0)
    ∧ (i ∈ otherIndices db ↔ i < db.length ∧ ¬(db.getD i default).dcode = 0)
    ∧ ¬(i ∈ conditionIndices db ∧ i ∈ otherIndices db)
    ∧ ((i ∈ conditionIndices db ∨ i ∈ otherIndices db) ↔ i < db.length)
    ∧ (generate_data db).1 =
        ((rowsAt db (conditionIndices db)).map Row.features).map
          (scalerTransform (colMeans ((rowsAt db (conditionIndices db)).map Row.features))
            (colVars ((rowsAt db (conditionIndices db)).map Row.features)))
    ∧ (generate_data db).2.1 = (rowsAt db (conditionIndices db)).map Row.label
    ∧ (generate_data db).2.2.2 = (rowsAt db (otherIndices db)).map Row.label := by
  have h1 : i ∈ conditionIndices db ↔ i < db.length ∧ (db.getD i default).dcode = 0 := by
    simp [conditionIndices, List.mem_filter, List.mem_range]
  have h2 : i ∈ otherIndices db ↔ i < db.length ∧ ¬(db.getD i default).dcode = 0 := by
    simp only [otherIndices, List.mem_filter, List.mem_range, decide_eq_true_eq, h1]
    constructor
    · rintro ⟨hlt, hnot⟩
      exact ⟨hlt, fun hd => hnot ⟨hlt, hd⟩⟩
    · rintro ⟨hlt, hnd⟩
      exact ⟨hlt, fun hc => hnd hc.2⟩
  refine ⟨h1, h2, ?_, ?_, rfl, rfl, rfl⟩
  · rintro ⟨hc, ho⟩
    exact ((h2.mp ho).2) ((h1.mp hc).2)
  · constructor
    · rintro (hc | ho)
      · exact (h1.mp hc).1
      · exact (h2.mp ho).1
    · intro hlt
      by_cases hd : (db.getD i default).dcode = 0
      · exact Or.inl (h1.mpr ⟨hlt, hd⟩)
      · exact Or.inr (h2.mpr ⟨hlt, hd⟩)

/-- Small concrete table used to instantiate the data-splitting theorems. -/
def dbEx : List Row := [⟨0, [1], [1]⟩, ⟨1, [2], [0]⟩]

/-- Witness for C2 at a concrete two-row table. -/
theorem generate_data_partition_witness :
    (0 : ℕ) ∈ conditionIndices dbEx ↔ 0 < dbEx.length ∧ (dbEx.getD 0 default).dcode = 0 :=
  (generate_data_partition dbEx 0).1

/-- C7: in the composite forward pass the decoder receives exactly the
concatenation of each latent sample row with the label row, and the decoder
output is the softmax of the affine final layer applied after the hidden
layers. -/
theorem vae_decoder_input (m : VAEM) (X Y E : List (List ℝ)) :
    ((VAE_call m X Y E).x_reconstructed =
      List.zipWith (fun zrow yrow => VAEDecoder_call m.decoder (zrow ++ yrow))
        (VAE_call m X Y E).z Y)
    ∧ (∀ (dec : VAEDecoderM) (v : List ℝ), VAEDecoder_call dec v =
      softmax (affine dec.final_layer
        (dec.hidden_layers.foldl (fun acc L => seluDense L acc) v))) := by
  constructor
  · show List.zipWith (fun o yrow => VAEDecoder_call m.decoder (o.z ++ yrow))
      (List.zipWith (fun x e => VAEEncoder_call m.encoder x e) X E) Y =
      List.zipWith (fun zrow yrow => VAEDecoder_call m.decoder (zrow ++ yrow))
        ((List.zipWith (fun x e => VAEEncoder_call m.encoder x e) X E).map EncOut.z) Y
    rw [List.zipWith_map_left]
  · intro dec v
    rfl

/-- C10: get_config followed by from_config is a round-trip on the
configuration of the encoder, the decoder and the composite VAE, whatever
freshly initialized layers the constructors produce. -/
theorem config_round_trip (e : VAEEncoderM) (hl : List DenseLayer) (yl ll : DenseLayer)
    (d : VAEDecoderM) (dl : List DenseLayer) (fl : DenseLayer)
    (v : VAEM) (hl₂ : List DenseLayer) (yl₂ ll₂ : DenseLayer)
    (dl₂ : List DenseLayer) (fl₂ : DenseLayer) :
    VAEEncoder_get_config (VAEEncoder_from_config (VAEEncoder_get_config e) hl yl ll) =
      VAEEncoder_get_config e
    ∧ VAEDecoder_get_config (VAEDecoder_from_config (VAEDecoder_get_config d) dl fl) =
      VAEDecoder_get_config d
    ∧ VAE_get_config (VAE_from_config (VAE_get_config v) hl₂ yl₂ ll₂ dl₂ fl₂) =
      VAE_get_config v :=
  ⟨rfl, rfl, rfl⟩

lemma reparam_zip_zero (m : List ℝ) : ∀ (v : List ℝ), m.length ≤ v.length →
    List.zipWith (fun mv e => mv.1 + Real.exp (0.5 * mv.2) * e) (m.zip v)
      (List.replicate m.length (0 : ℝ)) = m := by
  induction m with
  | nil => intro v _; rfl
  | cons a m ih =>
    intro v hlen
    cases v with
    | nil => simp at hlen
    | cons b v =>
      simp only [List.zip_cons_cons, List.length_cons, List.replicate_succ,
        List.zipWith_cons_cons, mul_zero, add_zero]
      exact congrArg (a :: ·) (ih v (by simpa using hlen))

/-- C4: the encoder's latent sample equals z_mean + exp(0.5 * z_log_var) *
epsilon elementwise, and when the noise is fixed to zero the sample equals the
latent mean exactly; the two hypotheses state that the latent layer has
2 * latent_dim output units, as built by the constructor. -/
theorem encoder_reparameterization (enc : VAEEncoderM) (x : List ℝ)
    (hw : enc.latent_layer.weights.length = 2 * enc.latent_dim)
    (hb : enc.latent_layer.bias.length = 2 * enc.latent_dim) :
    (∀ epsilon, (VAEEncoder_call enc x epsilon).z =
      List.zipWith (fun mv e => mv.1 + Real.exp (0.5 * mv.2) * e)
        ((VAEEncoder_call enc x epsilon).z_mean.zip (VAEEncoder_call enc x epsilon).z_log_var)
        epsilon)
    ∧ (VAEEncoder_call enc x (List.replicate enc.latent_dim 0)).z =
      (VAEEncoder_call enc x (List.replicate enc.latent_dim 0)).z_mean := by
  have hzpre : (seluDense enc.latent_layer (encoderHidden enc x)).length =
      2 * enc.latent_dim := by
    simp [seluDense, affine, hw, hb]
  constructor
  · intro epsilon
    rfl
  · show List.zipWith (fun mv e => mv.1 + Real.exp (0.5 * mv.2) * e)
      (((seluDense enc.latent_layer (encoderHidden enc x)).take enc.latent_dim).zip
        ((seluDense enc.latent_layer (encoderHidden enc x)).drop enc.latent_dim))
      (List.replicate enc.latent_dim (0 : ℝ)) =
      (seluDense enc.latent_layer (encoderHidden enc x)).take enc.latent_dim
    have hm : ((seluDense enc.latent_layer (encoderHidden enc x)).take enc.latent_dim).length =
        enc.latent_dim := by
      rw [List.length_take, hzpre]
      omega
    have hv : enc.latent_dim ≤
        ((seluDense enc.latent_layer (encoderHidden enc x)).drop enc.latent_dim).length := by
      rw [List.length_drop, hzpre]
      omega
    nth_rewrite 3 [← hm]
    exact reparam_zip_zero _ _ (by rw [hm]; exact hv)

/-- Concrete one-dimensional encoder used to instantiate the
reparameterization theorem. -/
def enc4 : VAEEncoderM :=
  ⟨[], 1, 1, 0, [], ⟨[[1]], [0]⟩, ⟨[[1], [1]], [0, 0]⟩⟩

/-- Witness for C4: on a concrete encoder whose latent layer has two output
units, the zero-noise sample equals the latent mean. -/
theorem encoder_reparameterization_witness :
    enc4.latent_layer.weights.length = 2 * enc4.latent_dim
    ∧ enc4.latent_layer.bias.length = 2 * enc4.latent_dim
    ∧ (VAEEncoder_call enc4 [1] (List.replicate enc4.latent_dim 0)).z =
      (VAEEncoder_call enc4 [1] (List.replicate enc4.latent_dim 0)).z_mean :=
  ⟨rfl, rfl, (encoder_reparameterization enc4 [1] rfl rfl).2⟩

/-- C5: the standardization statistics of generate_data and of
generate_data_thickness_only with normalize set are the column means and
variances of the train pool alone, the test pool is transformed with exactly
those statistics, and any table with the same train pool yields the same
transformation of its test pool. -/
theorem standardization_train_only (db db₂ : List Row) (thIdx : List ℕ) :
    ((generate_data db).2.2.1 =
      ((rowsAt db (otherIndices db)).map Row.features).map
        (scalerTransform (colMeans ((rowsAt db (conditionIndices db)).map Row.features))
          (colVars ((rowsAt db (conditionIndices db)).map Row.features))))
    ∧ ((generate_data db).1 =
      ((rowsAt db (conditionIndices db)).map Row.features).map
        (scalerTransform (colMeans ((rowsAt db (conditionIndices db)).map Row.features))
          (colVars ((rowsAt db (conditionIndices db)).map Row.features))))
    ∧ ((generate_data_thickness_only db thIdx true).2.2.1 =
      ((rowsAt db (otherIndices db)).map (fun r => selCols thIdx r.features)).map
        (scalerTransform
          (colMeans ((rowsAt db (conditionIndices db)).map (fun r => selCols thIdx r.features)))
          (colVars ((rowsAt db (conditionIndices db)).map (fun r => selCols thIdx r.features)))))
    ∧ (rowsAt db₂ (conditionIndices db₂) = rowsAt db (conditionIndices db) →
        (generate_data db₂).2.2.1 =
          ((rowsAt db₂ (otherIndices db₂)).map Row.features).map
            (scalerTransform (colMeans ((rowsAt db (conditionIndices db)).map Row.features))
              (colVars ((rowsAt db (conditionIndices db)).map Row.features)))) := by
  refine ⟨rfl, rfl, rfl, ?_⟩
  intro h
  show ((rowsAt db₂ (otherIndices db₂)).map Row.features).map
      (scalerTransform (colMeans ((rowsAt db₂ (conditionIndices db₂)).map Row.features))
        (colVars ((rowsAt db₂ (conditionIndices db₂)).map Row.features))) = _
  rw [h]

/-- One-row table whose train pool coincides with that of dbEx. -/
def dbEx2 : List Row := [⟨0, [1], [1]⟩]

/-- Witness for C5: dbEx and dbEx2 share the same train pool, so the test pool
of dbEx is standardized with statistics computed from dbEx2's train pool. -/
theorem standardization_train_only_witness :
    (generate_data dbEx).2.2.1 =
      ((rowsAt dbEx (otherIndices dbEx)).map Row.features).map
        (scalerTransform (colMeans ((rowsAt dbEx2 (conditionIndices dbEx2)).map Row.features))
          (colVars ((rowsAt dbEx2 (conditionIndices dbEx2)).map Row.features))) :=
  (standardization_train_only dbEx2 dbEx []).2.2.2 rfl

lemma expSum_pos (u : List ℝ) (h : u ≠ []) : 0 < (u.map Real.exp).sum := by
  apply List.sum_pos
  · intro y hy
    obtain ⟨a, _, rfl⟩ := List.mem_map.mp hy
    exact Real.exp_pos a
  · simpa using h

lemma softmax_mem_pos (u : List ℝ) (h : u ≠ []) : ∀ c ∈ softmax u, 0 < c := by
  intro c hc
  obtain ⟨a, _, rfl⟩ := List.mem_map.mp hc
  exact div_pos (Real.exp_pos a) (expSum_pos u h)

lemma softmax_mem_le_one (u : List ℝ) (h : u ≠ []) : ∀ c ∈ softmax u, c ≤ 1 := by
  intro c hc
  obtain ⟨a, ha, rfl⟩ := List.mem_map.mp hc
  apply (div_le_one (expSum_pos u h)).mpr
  apply List.single_le_sum (fun y hy => ?_) _ (List.mem_map_of_mem Real.exp ha)
  obtain ⟨b, _, rfl⟩ := List.mem_map.mp hy
  exact (Real.exp_pos b).le

lemma softmax_sum_eq_one (u : List ℝ) (h : u ≠ []) : (softmax u).sum = 1 := by
  unfold softmax
  simp only [div_eq_mul_inv]
  rw [List.sum_map_mul_right]
  exact mul_inv_cancel₀ (ne_of_gt (expSum_pos u h))

lemma softmax_mem_lt_one (u : List ℝ) (h2 : 2 ≤ u.length) : ∀ c ∈ softmax u, c < 1 := by
  intro c hc
  obtain ⟨a, ha, rfl⟩ := List.mem_map.mp hc
  have hne : u ≠ [] := by
    intro h0
    rw [h0] at h2
    simp at h2
  have hmem : Real.exp a ∈ u.map Real.exp := List.mem_map_of_mem Real.exp ha
  have hperm := List.perm_cons_erase hmem
  have hsum : (u.map Real.exp).sum =
      Real.exp a + ((u.map Real.exp).erase (Real.exp a)).sum := by
    rw [hperm.sum_eq, List.sum_cons]
  have hlen : ((u.map Real.exp).erase (Real.exp a)).length = u.length - 1 := by
    rw [List.length_erase_of_mem hmem, List.length_map]
  have hrest : 0 < ((u.map Real.exp).erase (Real.exp a)).sum := by
    apply List.sum_pos
    · intro y hy
      have hy2 : y ∈ u.map Real.exp := List.erase_subset _ _ hy
      obtain ⟨b, _, rfl⟩ := List.mem_map.mp hy2
      exact Real.exp_pos b
    · intro h0
      rw [h0] at hlen
      simp at hlen
      omega
  apply (div_lt_one (expSum_pos u hne)).mpr
  rw [hsum]
  linarith

/-- Concrete decoder with a single output unit and no hidden layers. -/
def dec1 : VAEDecoderM := ⟨[], 1, 0, [], ⟨[[1]], [0]⟩⟩

/-- Counterexample for C9: a decoder with one output unit returns exactly [1]
on input [0], so its output component does not lie strictly below 1. -/
theorem decoder_simplex_cex :
    VAEDecoder_call dec1 [0] = [1]
    ∧ ¬(∀ c ∈ VAEDecoder_call dec1 [0], 0 < c ∧ c < 1) := by
  have h : VAEDecoder_call dec1 [0] = [1] := by
    show softmax (affine ⟨[[1]], [0]⟩ [0]) = [1]
    have ha : affine ⟨[[1]], [0]⟩ [0] = [0] := by
      simp [affine, dot]
    rw [ha]
    unfold softmax
    simp [Real.exp_zero]
  refine ⟨h, ?_⟩
  intro hall
  have h1 := hall 1 (by rw [h]; exact List.mem_singleton.mpr rfl)
  exact absurd h1.2 (lt_irrefl 1)

/-- C9 as amended: every output component of the decoder lies in (0, 1], the
output sums to 1, and every component is strictly below 1 as soon as the
output has at least two components (the hypothesis rules out an empty output,
which the softmax of an empty affine layer would produce). -/
theorem decoder_output_simplex (dec : VAEDecoderM) (x : List ℝ)
    (h : VAEDecoder_call dec x ≠ []) :
    (∀ c ∈ VAEDecoder_call dec x, 0 < c ∧ c ≤ 1)
    ∧ (VAEDecoder_call dec x).sum = 1
    ∧ (2 ≤ (VAEDecoder_call dec x).length → ∀ c ∈ VAEDecoder_call dec x, c < 1) := by
  have hu : affine dec.final_layer
      (dec.hidden_layers.foldl (fun acc L => seluDense L acc) x) ≠ [] := by
    intro h0
    apply h
    show softmax _ = []
    rw [h0]
    rfl
  refine ⟨fun c hc => ⟨softmax_mem_pos _ hu c hc, softmax_mem_le_one _ hu c hc⟩,
    softmax_sum_eq_one _ hu, fun hlen c hc => softmax_mem_lt_one _ ?_ c hc⟩
  have : (softmax (affine dec.final_layer
      (dec.hidden_layers.foldl (fun acc L => seluDense L acc) x))).length =
      (affine dec.final_layer
        (dec.hidden_layers.foldl (fun acc L => seluDense L acc) x)).length := by
    unfold softmax
    rw [List.length_map]
  rw [← this]
  exact hlen

/-- Concrete decoder with two output units and no hidden layers. -/
def dec2 : VAEDecoderM := ⟨[], 2, 0, [], ⟨[[1], [1]], [0, 0]⟩⟩

/-- Witness for C9 as amended, at a concrete two-unit decoder. -/
theorem decoder_output_simplex_witness :
    (∀ c ∈ VAEDecoder_call dec2 [0], 0 < c ∧ c ≤ 1)
    ∧ (VAEDecoder_call dec2 [0]).sum = 1
    ∧ (2 ≤ (VAEDecoder_call dec2 [0]).length → ∀ c ∈ VAEDecoder_call dec2 [0], c < 1) :=
  decoder_output_simplex dec2 [0] (by
    show softmax (affine ⟨[[1], [1]], [0, 0]⟩ [0]) ≠ []
    have ha : affine ⟨[[1], [1]], [0, 0]⟩ [0] = [0, 0] := by
      simp [affine, dot]
    rw [ha]
    unfold softmax
    simp)

/-- Concrete one-dimensional encoder used to evaluate the latent layer on a
negative pre-activation. -/
def enc6 : VAEEncoderM :=
  ⟨[], 1, 1, 0, [], ⟨[[1]], [0]⟩, ⟨[[1], [1]], [0, 0]⟩⟩

/-- C6, against the code: the latent-parameter layer of the encoder applies
the selu activation (not a linear one) to its affine output, while the
class-prediction layer does apply softmax; at the failing input the latent
mean is selu(-1), which is strictly below -1 and so differs from the -1 a
linear activation would return. -/
theorem encoder_final_layer_activations :
    (∀ (enc : VAEEncoderM) (x epsilon : List ℝ),
      (VAEEncoder_call enc x epsilon).z_mean ++ (VAEEncoder_call enc x epsilon).z_log_var =
        (affine enc.latent_layer (encoderHidden enc x)).map selu)
    ∧ (∀ (enc : VAEEncoderM) (x epsilon : List ℝ),
      (VAEEncoder_call enc x epsilon).y = softmax (affine enc.y_layer (encoderHidden enc x)))
    ∧ (VAEEncoder_call enc6 [-1] [0]).z_mean = [selu (-1)]
    ∧ selu (-1) < -1 := by
  refine ⟨?_, fun enc x epsilon => rfl, ?_, ?_⟩
  · intro enc x epsilon
    show ((affine enc.latent_layer (encoderHidden enc x)).map selu).take enc.latent_dim ++
      ((affine enc.latent_layer (encoderHidden enc x)).map selu).drop enc.latent_dim = _
    exact List.take_append_drop _ _
  · show ((affine (⟨[[1], [1]], [0, 0]⟩ : DenseLayer) [-1]).map selu).take 1 = [selu (-1)]
    have ha : affine (⟨[[1], [1]], [0, 0]⟩ : DenseLayer) [-1] = [-1, -1] := by
      simp [affine, dot]
    rw [ha]
    rfl
  · unfold selu seluScale seluAlpha
    rw [if_neg (by norm_num)]
    have h1 : Real.exp (-1) * Real.exp 1 = 1 := by
      rw [← Real.exp_add]
      norm_num
    have h2 := Real.exp_one_gt_d9
    have h3 := Real.exp_pos (-1)
    nlinarith

lemma length_list_product {α β : Type} (l₁ : List α) (l₂ : List β) :
    (l₁.product l₂).length = l₁.length * l₂.length := List.length_product l₁ l₂

/-- C8: the cross-validation run over a grid built from the six axes produces
exactly the product of the axis sizes as result entries, and every entry holds
exactly k per-fold histories. -/
theorem cross_validation_result_count {H : Type} (hs : List (List ℕ)) (ls : List ℕ)
    (ds : List ℚ) (acts inits : List String) (betas : List ℚ) (k : ℕ)
    (trainFold : ParamCombo → ℕ → H) :
    ((cross_validate (create_param_grid hs ls ds acts inits betas) k trainFold).length =
      hs.length * ls.length * ds.length * acts.length * inits.length * betas.length)
    ∧ ∀ e ∈ cross_validate (create_param_grid hs ls ds acts inits betas) k trainFold,
        e.histories.length = k := by
  constructor
  · simp only [cross_validate, create_param_grid, List.length_map]
    rw [length_list_product, length_list_product, length_list_product, length_list_product,
      length_list_product]
  · intro e he
    simp only [cross_validate, List.mem_map] at he
    obtain ⟨p, _, rfl⟩ := he
    simp

/-- Witness for C8: a one-point grid with three folds yields an entry holding
exactly three histories. -/
theorem cross_validation_result_count_witness :
    (⟨⟨[128], 5, 0, "relu", "g", 1⟩, [0, 0, 0]⟩ : CVEntry ℕ).histories.length = 3 :=
  (cross_validation_result_count [[128]] [5] [0] ["relu"] ["g"] [1] 3 (fun _ _ => 0)).2
    ⟨⟨[128], 5, 0, "relu", "g", 1⟩, [0, 0, 0]⟩ (List.mem_singleton.mpr rfl)

end CorticalThickness
